import Mathlib

/-!
Verification of the Monark raw-data processing pipeline
(`monark_processing/command.py`) against its natural-language specification.

The pipeline decodes a hex "FlyWheelLog" string into 32-bit timer ticks,
derives kinematic quantities (elapsed time, cadence, two power components)
per attempt, drops leading samples lacking history, and smooths power/rpm
with a centered ±0.5 s time window.

Modelling conventions (shallow embedding):
* IEEE-754 doubles are modelled by `Flt`: an exact rational for finite
  values plus `pinf`/`ninf`/`nan`.  Finite arithmetic is exact rational
  arithmetic (the claims under study are structural and do not depend on
  binary rounding error); the special-value propagation rules follow IEEE
  as implemented by numpy/pandas.  Negative zero is not modelled: the
  concrete inputs used below never exercise a `-0.0` path.
* Python strings are `List Char` (the inputs are ASCII; the Unicode
  whitespace/digit forms Python would additionally accept are outside the
  model and unused).
* Python exceptions become `Except Err`: `Err.decodeError` stands for the
  `ValueError` of `int(_, 16)`, `Err.configError` for the error raised on
  a zero sampling-magnets value (scalar `round` of a non-finite) and for
  the spec's invalid-kind error, `Err.indexError` for `.iloc[0]` on an
  empty series.
* pandas specifics encoded faithfully: `dropna` removes rows containing
  NaN (infinities are kept); `Series.sum()` skips NaN addends
  (`skipna=True`) while `shape[0]` still counts them; `Series.round`
  maps non-finite values to themselves; Python `round` is half-to-even.
-/

namespace Monark

/-- Model of an IEEE double: exact rational finite values plus the three
special values.  `-0.0` is not distinguished from `0.0`. -/
inductive Flt where
  | fin (q : ℚ)
  | pinf
  | ninf
  | nan
deriving DecidableEq, Repr, Inhabited

namespace Flt

/-- NaN test (`pandas.isna` on a float column). -/
def isNaN : Flt → Bool
  | nan => true
  | _ => false

/-- IEEE negation. -/
def neg : Flt → Flt
  | fin q => fin (-q)
  | pinf => ninf
  | ninf => pinf
  | nan => nan

/-- IEEE addition (exact on finite values). -/
def add : Flt → Flt → Flt
  | nan, _ => nan
  | _, nan => nan
  | fin a, fin b => fin (a + b)
  | pinf, ninf => nan
  | ninf, pinf => nan
  | pinf, _ => pinf
  | _, pinf => pinf
  | ninf, _ => ninf
  | _, ninf => ninf

/-- IEEE subtraction, as `a + (-b)`. -/
def sub (a b : Flt) : Flt := a.add b.neg

/-- IEEE multiplication; `±∞ * 0 = NaN`. -/
def mul : Flt → Flt → Flt
  | nan, _ => nan
  | _, nan => nan
  | fin a, fin b => fin (a * b)
  | fin a, pinf => if 0 < a then pinf else if a < 0 then ninf else nan
  | fin a, ninf => if 0 < a then ninf else if a < 0 then pinf else nan
  | pinf, fin b => if 0 < b then pinf else if b < 0 then ninf else nan
  | ninf, fin b => if 0 < b then ninf else if b < 0 then pinf else nan
  | pinf, pinf => pinf
  | pinf, ninf => ninf
  | ninf, pinf => ninf
  | ninf, ninf => pinf

/-- IEEE division as numpy performs it on float columns: division by a
(positive) zero yields a signed infinity, `0/0` yields NaN, `∞/∞` NaN. -/
def div : Flt → Flt → Flt
  | nan, _ => nan
  | _, nan => nan
  | fin a, fin b =>
      if b = 0 then (if 0 < a then pinf else if a < 0 then ninf else nan)
      else fin (a / b)
  | fin _, pinf => fin 0
  | fin _, ninf => fin 0
  | pinf, fin b => if b < 0 then ninf else pinf
  | ninf, fin b => if b < 0 then pinf else ninf
  | pinf, _ => nan
  | ninf, _ => nan

/-- `x ** 2` on a float column. -/
def sq (x : Flt) : Flt := x.mul x

/-- IEEE strict less-than; NaN compares false. -/
def ltb : Flt → Flt → Bool
  | nan, _ => false
  | _, nan => false
  | fin a, fin b => a < b
  | fin _, pinf => true
  | pinf, _ => false
  | ninf, fin _ => true
  | ninf, pinf => true
  | ninf, ninf => false
  | fin _, ninf => false

/-- IEEE less-or-equal; NaN compares false. -/
def leb : Flt → Flt → Bool
  | nan, _ => false
  | _, nan => false
  | fin a, fin b => a ≤ b
  | fin _, pinf => true
  | pinf, fin _ => false
  | pinf, pinf => true
  | pinf, ninf => false
  | fin _, ninf => false
  | ninf, _ => true

instance : Add Flt := ⟨Flt.add⟩
instance : Sub Flt := ⟨Flt.sub⟩
instance : Mul Flt := ⟨Flt.mul⟩
instance : Div Flt := ⟨Flt.div⟩
instance : Neg Flt := ⟨Flt.neg⟩

end Flt

/-- Round a rational to the nearest integer, ties to even (Python / numpy
`round` semantics on exactly-representable values). -/
def rhe (q : ℚ) : ℤ :=
  let f : ℤ := ⌊q⌋
  let r : ℚ := q - f
  if r < 1 / 2 then f
  else if 1 / 2 < r then f + 1
  else if 2 ∣ f then f else f + 1

/-- `round(_, 2)`: half-to-even at two decimal places. -/
def rhe2 (q : ℚ) : ℚ := (rhe (q * 100) : ℚ) / 100

/-- `Series.round()` (and scalar `round(x, n)`): finite values are rounded
half-to-even, non-finite values pass through. -/
def Flt.roundS : Flt → Flt
  | Flt.fin q => Flt.fin (rhe q)
  | x => x

/-- `round(_, 2)` applied to a float column or scalar. -/
def Flt.roundS2 : Flt → Flt
  | Flt.fin q => Flt.fin (rhe2 q)
  | x => x

/-- The error outcomes of the pipeline (see module docstring). -/
inductive Err where
  | decodeError
  | configError
  | indexError
deriving DecidableEq, Repr

instance {ε α : Type} [DecidableEq ε] [DecidableEq α] : DecidableEq (Except ε α) :=
  fun a b =>
    match a, b with
    | Except.ok x, Except.ok y =>
      if h : x = y then isTrue (by rw [h]) else isFalse (by simp [h])
    | Except.error x, Except.error y =>
      if h : x = y then isTrue (by rw [h]) else isFalse (by simp [h])
    | Except.ok _, Except.error _ => isFalse (by simp)
    | Except.error _, Except.ok _ => isFalse (by simp)

/-- Scalar Python `round(x)` with no digit count: returns an integer and
raises (`OverflowError`/`ValueError`, abstracted to `Err.configError`) on
non-finite input.  Used for the Magnets formula. -/
def pyRoundInt : Flt → Except Err ℤ
  | Flt.fin q => Except.ok (rhe q)
  | _ => Except.error Err.configError

/-- Hex digit value (`0-9`, `a-f`, `A-F`), by character code. -/
def hexVal (c : Char) : Option ℕ :=
  let n := c.toNat
  if 48 ≤ n ∧ n ≤ 57 then some (n - 48)
  else if 97 ≤ n ∧ n ≤ 102 then some (n - 87)
  else if 65 ≤ n ∧ n ≤ 70 then some (n - 55)
  else none

/-- ASCII whitespace stripped by Python `int(str, 16)`. -/
def isPySpace (c : Char) : Bool :=
  c.toNat = 32 ∨ c.toNat = 9 ∨ c.toNat = 10 ∨ c.toNat = 13 ∨
    c.toNat = 11 ∨ c.toNat = 12

/-- Strip leading and trailing whitespace (Python `int` tolerates both). -/
def pyStrip (l : List Char) : List Char :=
  ((l.dropWhile isPySpace).reverse.dropWhile isPySpace).reverse

/-- Continue parsing hex digits after at least one digit has been read;
a single underscore is allowed between two digits. -/
def parseHexTail (acc : ℕ) : List Char → Option ℕ
  | [] => some acc
  | c :: rest =>
    if c.toNat = 95 then
      match rest with
      | [] => none
      | c2 :: rest2 =>
        match hexVal c2 with
        | some d => parseHexTail (16 * acc + d) rest2
        | none => none
    else
      match hexVal c with
      | some d => parseHexTail (16 * acc + d) rest
      | none => none

/-- Parse a nonempty run of hex digits with optional single underscores
between digits. -/
def parseHexDigits : List Char → Option ℕ
  | [] => none
  | c :: rest =>
    match hexVal c with
    | some d => parseHexTail d rest
    | none => none

/-- After an optional sign: an optional `0x`/`0X` prefix (an underscore may
directly follow the prefix), then hex digits. -/
def parseAfterSign : List Char → Option ℕ
  | [] => none
  | [c] => parseHexDigits [c]
  | c1 :: c2 :: rest =>
    if c1 = '0' ∧ (c2 = 'x' ∨ c2 = 'X') then
      match rest with
      | '_' :: rest2 => parseHexDigits rest2
      | _ => parseHexDigits rest
    else
      parseHexDigits (c1 :: c2 :: rest)

/-- Optional single leading sign. -/
def parseSigned (l : List Char) : Option ℤ :=
  match l with
  | [] => none
  | c :: rest =>
    if c = '+' then (parseAfterSign rest).map (fun n => (n : ℤ))
    else if c = '-' then (parseAfterSign rest).map (fun n => -(n : ℤ))
    else (parseAfterSign l).map (fun n => (n : ℤ))

/-- Python `int(s, 16)` on ASCII strings: strip whitespace, optional sign,
optional `0x` prefix, underscore-separated hex digits. -/
def pyIntHex (l : List Char) : Option ℤ := parseSigned (pyStrip l)

/-- The folded value of a run of hex digits. -/
def hexListVal (acc : ℕ) (l : List Char) : ℕ :=
  l.foldl (fun a c => 16 * a + (hexVal c).getD 0) acc

/-- `hex_to_int`: reorder the four 2-character byte groups last-to-first and
parse the result in base 16 (`ValueError` ↦ `Err.decodeError`). -/
def hex_to_int (s : List Char) : Except Err ℤ :=
  let hex_reversed :=
    s.drop 6 ++ ((s.drop 4).take 2 ++ ((s.drop 2).take 2 ++ s.take 2))
  match pyIntHex hex_reversed with
  | some n => Except.ok n
  | none => Except.error Err.decodeError

/-- One input row of the Monark dataset (`df.iterrows()` row).  Numeric
fields are modelled as exact rationals (finite floats). -/
structure RawRow where
  FlyWheelLog : List Char
  BoutNumber : ℤ
  Created : ℚ
  LastName : String
  FirstName : String
  PersonWeight : ℚ
  SamplingMagnets : ℚ
  BrakeWeight : ℚ
  Duration : ℚ
deriving DecidableEq, Repr, Inhabited

/-- One row of the per-attempt frame `res_df` after all derived columns are
assigned (before the smoothing columns).  `idx` is the pandas row index
(the tick's 0-based position in the decode order). -/
structure Row where
  idx : ℕ
  timer : ℤ
  hex : List Char
  Attempt : ℤ
  Created : ℚ
  LastName : String
  FirstName : String
  Weight : ℚ
  Inertia : ℚ
  Magnets : ℤ
  BrakeWeight : ℚ
  time_elapsed : Flt
  time_test : Flt
  time_diff : Flt
  rpm : Flt
  time_test_diff : Flt
  power_brake : Flt
  power_kinetic : Flt
  time_recorded : Flt
deriving DecidableEq, Repr, Inhabited

/-- A finished output row: a `Row` extended with the two smoothed columns. -/
structure Sample extends Row where
  power_centered : Flt
  rpm_centered : Flt
deriving DecidableEq, Repr, Inhabited

/-- `math.pi`, as the decimal literal Python prints for it (an opaque
calibration constant for the claims below). -/
def mathPi : ℚ := 3.141592653589793

/-- Scalar coefficient of the kinetic-power formula,
`4 * math.pi ** 2 * 57600 ** 3 * 0.91` (Inertia is the constant 0.91). -/
def pkCoef : ℚ := ((4 * mathPi ^ 2) * 57600 ^ 3) * (91 / 100)

/-- `timer` column access, `res_df["timer"]` at label `i`. -/
def tickAt (ticks : List ℤ) (i : ℕ) : ℤ := ticks.getD i 0

/-- `Series.shift(1)` of a derived column: NaN at row 0. -/
def sh (f : ℕ → Flt) (i : ℕ) : Flt :=
  if i = 0 then Flt.nan else f (i - 1)

/-- The `timer` column viewed as floats (as `shift` produces). -/
def timerF (ticks : List ℤ) (i : ℕ) : Flt := Flt.fin (tickAt ticks i)

/-- `time_elapsed = (timer - timer.iloc[0]) / 57600`. -/
def timeElapsed (ticks : List ℤ) (i : ℕ) : Flt :=
  (timerF ticks i - timerF ticks 0) / Flt.fin 57600

/-- `time_test = (time_elapsed + time_elapsed.shift(1)) / 2`. -/
def timeTest (ticks : List ℤ) (i : ℕ) : Flt :=
  (timeElapsed ticks i + sh (timeElapsed ticks) i) / Flt.fin 2

/-- `time_diff = timer.diff()`. -/
def timeDiff (ticks : List ℤ) (i : ℕ) : Flt :=
  timerF ticks i - sh (timerF ticks) i

/-- `rpm = round(14 * 60 * 57600 / (Magnets * 52 * time_diff))`. -/
def rpmCol (ticks : List ℤ) (M : ℤ) (i : ℕ) : Flt :=
  Flt.roundS (Flt.fin (14 * 60 * 57600) /
    ((Flt.fin (M : ℚ) * Flt.fin 52) * timeDiff ticks i))

/-- `time_test_diff = time_test.diff()`. -/
def timeTestDiff (ticks : List ℤ) (i : ℕ) : Flt :=
  timeTest ticks i - sh (timeTest ticks) i

/-- `power_brake = BrakeWeight * 9.81 * math.pi * 0.514
      / (Magnets * time_test_diff)`. -/
def powerBrake (ticks : List ℤ) (M : ℤ) (BW : ℚ) (i : ℕ) : Flt :=
  (((Flt.fin BW * Flt.fin (981 / 100)) * Flt.fin mathPi) * Flt.fin (514 / 1000)) /
    (Flt.fin (M : ℚ) * timeTestDiff ticks i)

/-- `power_kinetic = 4 * π² * 57600³ * Inertia
      / (Magnets ** 2 * (timer - timer.shift(2)))
      * (1 / (timer - timer.shift(1)) ** 2
         - 1 / (timer.shift(1) - timer.shift(2)) ** 2)`. -/
def powerKinetic (ticks : List ℤ) (M : ℤ) (i : ℕ) : Flt :=
  (Flt.fin pkCoef /
      (Flt.fin ((M : ℚ) ^ 2) * (timerF ticks i - sh (sh (timerF ticks)) i))) *
    ((Flt.fin 1 / (timerF ticks i - sh (timerF ticks) i).sq) -
      (Flt.fin 1 / (sh (timerF ticks) i - sh (sh (timerF ticks)) i).sq))

/-- `time_recorded = round(time_elapsed - time_elapsed.iloc[-1] + Duration, 2)`. -/
def timeRecorded (ticks : List ℤ) (Dur : ℚ) (i : ℕ) : Flt :=
  Flt.roundS2 ((timeElapsed ticks i - timeElapsed ticks (ticks.length - 1)) +
    Flt.fin Dur)

/-- The log chunk `row["FlyWheelLog"][i*8:(i+1)*8]`. -/
def chunkAt (log : List Char) (i : ℕ) : List Char :=
  (log.drop (8 * i)).take 8

/-- The list of full 8-character chunks of a log (a trailing fragment
shorter than 8 characters is discarded by `len(log) // 8`). -/
def chunksOf (log : List Char) : List (List Char) :=
  (List.range (log.length / 8)).map (chunkAt log)

/-- Row `i` of `res_df` with every derived column assigned. -/
def mkRow (row : RawRow) (ticks : List ℤ) (M : ℤ) (i : ℕ) : Row :=
  { idx := i
    timer := tickAt ticks i
    hex := chunkAt row.FlyWheelLog i
    Attempt := row.BoutNumber
    Created := row.Created
    LastName := row.LastName
    FirstName := row.FirstName
    Weight := row.PersonWeight
    Inertia := 91 / 100
    Magnets := M
    BrakeWeight := row.BrakeWeight
    time_elapsed := timeElapsed ticks i
    time_test := timeTest ticks i
    time_diff := timeDiff ticks i
    rpm := rpmCol ticks M i
    time_test_diff := timeTestDiff ticks i
    power_brake := powerBrake ticks M row.BrakeWeight i
    power_kinetic := powerKinetic ticks M i
    time_recorded := timeRecorded ticks row.Duration i }

/-- `dropna` test: true when some column of the row is NaN (the non-float
columns can never be NaN). -/
def rowHasNaN (r : Row) : Bool :=
  r.time_elapsed.isNaN || r.time_test.isNaN || r.time_diff.isNaN ||
    r.rpm.isNaN || r.time_test_diff.isNaN || r.power_brake.isNaN ||
    r.power_kinetic.isNaN || r.time_recorded.isNaN

/-- The per-attempt frame before filtering, rows in decode order. -/
def buildRows (row : RawRow) (ticks : List ℤ) (M : ℤ) : List Row :=
  (List.range ticks.length).map (mkRow row ticks M)

/-- `res_df = res_df.dropna().iloc[1:]`. -/
def buildBase (row : RawRow) (ticks : List ℤ) (M : ℤ) : List Row :=
  (((buildRows row ticks M).filter (fun r => !rowHasNaN r)).drop 1)

/-- The window selection of `calc_window`:
`df[(df["time_test"] > t - 0.5) & (df["time_test"] < t + 0.5)]`. -/
def windowSelect (df : List Row) (current_time : Flt) : List Row :=
  df.filter (fun r =>
    Flt.ltb (current_time - Flt.fin (1 / 2)) r.time_test &&
      Flt.ltb r.time_test (current_time + Flt.fin (1 / 2)))

/-- `Series.sum()` with its default `skipna=True`: NaN addends are skipped;
the empty sum is `0.0`. -/
def pandasSum (l : List Flt) : Flt :=
  (l.filter (fun x => !x.isNaN)).foldl Flt.add (Flt.fin 0)

/-- `calc_window(current_time, df, type_measurement)`.  Note the source
constructs — but never raises — an `AssertionError` on an unknown
measurement kind, so the initial `result = 0.0` is returned there. -/
def calc_window (current_time : Flt) (df : List Row) (type_measurement : String) :
    Flt :=
  let sample_df := windowSelect df current_time
  if type_measurement = "power" then
    Flt.roundS2
      (pandasSum (sample_df.map (fun r => r.power_brake + r.power_kinetic)) /
        Flt.fin (sample_df.length : ℚ))
  else if type_measurement = "rpm" then
    Flt.roundS2
      (pandasSum (sample_df.map (fun r => r.rpm)) /
        Flt.fin (sample_df.length : ℚ))
  else
    Flt.fin 0

/-- Attach the two smoothed columns to one base row (the `apply` lambdas
pass the row's own `time_test` as the window center, over the same frame). -/
def mkSample (base : List Row) (r : Row) : Sample :=
  { toRow := r
    power_centered := calc_window r.time_test base ("power")
    rpm_centered := calc_window r.time_test base ("rpm") }

/-- `Magnets = round(14 / (52 * row["SamplingMagnets"] / 10000))`: scalar
float arithmetic followed by scalar `round`, which raises on the
non-finite value produced when `SamplingMagnets` is zero. -/
def magnetsOf (row : RawRow) : Except Err ℤ :=
  pyRoundInt (Flt.fin 14 /
    ((Flt.fin 52 * Flt.fin row.SamplingMagnets) / Flt.fin 10000))

/-- Decode all full 8-character chunks of the attempt's log, in order. -/
def decodeLog (log : List Char) : Except Err (List ℤ) :=
  (chunksOf log).mapM hex_to_int

/-- Processing of one attempt (one iteration of the `transform` loop):
decode the ticks, derive the columns, drop undefined rows plus one more
leading row, then attach the smoothed columns.  The `.iloc[0]` access in
the `time_elapsed` formula raises on an empty tick series. -/
def processAttempt (row : RawRow) : Except Err (List Sample) :=
  match decodeLog row.FlyWheelLog with
  | Except.error e => Except.error e
  | Except.ok ticks =>
    match magnetsOf row with
    | Except.error e => Except.error e
    | Except.ok M =>
      if ticks.isEmpty then Except.error Err.indexError
      else
        Except.ok ((buildBase row ticks M).map (mkSample (buildBase row ticks M)))

/-- The `for idx, row in df.iterrows()` loop: process attempts in input
order, stopping at the first exception. -/
def processAll : List RawRow → Except Err (List (List Sample))
  | [] => Except.ok []
  | row :: rest =>
    match processAttempt row with
    | Except.error e => Except.error e
    | Except.ok s =>
      match processAll rest with
      | Except.error e => Except.error e
      | Except.ok ls => Except.ok (s :: ls)

/-- `transform`: process the attempts in input order and concatenate the
resulting series (`pd.concat(dfs)`); the first exception aborts the whole
batch, so an error produces no output rows at all. -/
def transform (df : List RawRow) : Except Err (List Sample) :=
  (processAll df).map List.flatten

/-! ### Spec-side definitions

These two groups of definitions are written from the specification's
wording, not from the source, and exist only to be compared against the
source-derived definitions above. -/

/-- Uppercase hex digit character for a value `< 16`. -/
def hexDigitChar (n : ℕ) : Char :=
  if n < 10 then Char.ofNat (48 + n) else Char.ofNat (55 + n)

/-- Hex encoding of one byte value (two characters). -/
def byteToHex (b : ℕ) : List Char :=
  [hexDigitChar (b / 16), hexDigitChar (b % 16)]

/-- Modelled from the spec's byte-order contract (§8): encode a 32-bit
value as four big-endian bytes, reverse the byte order, hex-encode. -/
def specEncodeChunk (v : ℕ) : List Char :=
  (([v / 2 ^ 24 % 256, v / 2 ^ 16 % 256, v / 2 ^ 8 % 256, v % 256].reverse).map
    byteToHex).flatten

/-- Modelled from the spec's window-equivalence wording: the samples of the
series whose `time_test` lies strictly inside `(center - 0.5, center + 0.5)`. -/
def specSelect (series : List Sample) (center : Flt) : List Sample :=
  series.filter (fun s =>
    Flt.ltb (center - Flt.fin (1 / 2)) s.time_test &&
      Flt.ltb s.time_test (center + Flt.fin (1 / 2)))

/-- Modelled from the spec's window-equivalence wording: the mean of
`power_brake + power_kinetic` over the selected samples, rounded to two
decimals.  The mean is the plain float sum divided by the selection count
(a NaN addend makes the mean NaN). -/
def specPowerMean (series : List Sample) (center : Flt) : Flt :=
  let sel := specSelect series center
  Flt.roundS2
    ((sel.map (fun s => s.power_brake + s.power_kinetic)).foldl Flt.add
        (Flt.fin 0) /
      Flt.fin (sel.length : ℚ))

/-! ### Concrete inputs used by witnesses and counterexamples -/

/-- A well-behaved attempt: six ticks spaced 576 apart (0.01 s at
57600 Hz), `SamplingMagnets = 1000` so `Magnets = 3`. -/
def demoRow : RawRow :=
  { FlyWheelLog := ("00000000" ++ "40020000" ++ "80040000" ++ "C0060000" ++
      "00090000" ++ "400B0000").toList
    BoutNumber := 1, Created := 0, LastName := "A", FirstName := "B"
    PersonWeight := 80, SamplingMagnets := 1000, BrakeWeight := 2, Duration := 5 }

/-- The decoded ticks of `demoRow`. -/
def demoTicks : List ℤ := [0, 576, 1152, 1728, 2304, 2880]

/-- The output series of `demoRow`. -/
def demoSeries : List Sample := (processAttempt demoRow).toOption.getD []

/-- Four identical ticks (a stalled flywheel): every derived row contains a
NaN, so `dropna` removes all of them. -/
def c3Row : RawRow :=
  { FlyWheelLog := ("01000000" ++ "01000000" ++ "01000000" ++ "01000000").toList
    BoutNumber := 2, Created := 0, LastName := "A", FirstName := "B"
    PersonWeight := 80, SamplingMagnets := 1000, BrakeWeight := 2, Duration := 5 }

/-- Five strictly decreasing ticks. -/
def c8Row : RawRow :=
  { FlyWheelLog := ("05000000" ++ "04000000" ++ "03000000" ++ "02000000" ++
      "01000000").toList
    BoutNumber := 3, Created := 0, LastName := "A", FirstName := "B"
    PersonWeight := 80, SamplingMagnets := 1000, BrakeWeight := 2, Duration := 5 }

/-- The output series of `c8Row`. -/
def c8Series : List Sample := (processAttempt c8Row).toOption.getD []

/-- `SamplingMagnets = 100000` gives `Magnets = 0`, and the widening tick
gaps make `power_brake = +∞` and `power_kinetic = -∞` on the surviving
row, so their sum is NaN. -/
def c2Row : RawRow :=
  { FlyWheelLog := ("00000000" ++ "40020000" ++ "D0070000" ++ "88130000").toList
    BoutNumber := 4, Created := 0, LastName := "A", FirstName := "B"
    PersonWeight := 80, SamplingMagnets := 100000, BrakeWeight := 2, Duration := 5 }

/-- The output series of `c2Row`. -/
def c2Series : List Sample := (processAttempt c2Row).toOption.getD []

/-- An attempt whose log fails tick decoding and whose sampling-magnets
value is zero at the same time. -/
def c5Row : RawRow :=
  { FlyWheelLog := ("ZZZZZZZZ").toList
    BoutNumber := 5, Created := 0, LastName := "A", FirstName := "B"
    PersonWeight := 80, SamplingMagnets := 0, BrakeWeight := 2, Duration := 5 }

/-- An attempt whose log is shorter than one 8-character chunk. -/
def c9Row : RawRow :=
  { FlyWheelLog := ("01").toList
    BoutNumber := 6, Created := 0, LastName := "A", FirstName := "B"
    PersonWeight := 80, SamplingMagnets := 1000, BrakeWeight := 2, Duration := 5 }

/-- An attempt with a decodable log and a zero sampling-magnets value. -/
def c5bRow : RawRow :=
  { FlyWheelLog := ("01000000").toList
    BoutNumber := 7, Created := 0, LastName := "A", FirstName := "B"
    PersonWeight := 80, SamplingMagnets := 0, BrakeWeight := 2, Duration := 5 }

/-! ### Sanity checks

The decoder vectors below were validated against CPython's `int(_, 16)`
behaviour on the same inputs. -/

example : hex_to_int (("01000000").toList) = Except.ok 1 := by decide

example : hex_to_int (("FFFFFFFF").toList) = Except.ok 4294967295 := by decide

example : hex_to_int (("111111 1").toList) = Except.ok 17895697 := by decide

example : hex_to_int (("000100-1").toList) = Except.ok (-16777472) := by decide

example : hex_to_int (("01000Z00").toList) = Except.error Err.decodeError := by decide

example : decodeLog demoRow.FlyWheelLog = Except.ok demoTicks := by decide

example : magnetsOf demoRow = Except.ok 3 := by with_unfolding_all rfl

/-! ### Helper lemmas on the float model -/

theorem fin_add_fin (a b : ℚ) : Flt.fin a + Flt.fin b = Flt.fin (a + b) := rfl

theorem fin_sub_fin (a b : ℚ) : Flt.fin a - Flt.fin b = Flt.fin (a - b) := by
  have h : Flt.fin a - Flt.fin b = Flt.fin (a + -b) := rfl
  rw [h, ← sub_eq_add_neg]

theorem fin_mul_fin (a b : ℚ) : Flt.fin a * Flt.fin b = Flt.fin (a * b) := rfl

theorem fin_div_fin (a : ℚ) {b : ℚ} (h : b ≠ 0) :
    Flt.fin a / Flt.fin b = Flt.fin (a / b) := by
  show Flt.div _ _ = _
  simp [Flt.div, h]

theorem add_nan (x : Flt) : x + Flt.nan = Flt.nan := by
  cases x <;> rfl

theorem nan_add (x : Flt) : Flt.nan + x = Flt.nan := by
  cases x <;> rfl

theorem sub_nan (x : Flt) : x - Flt.nan = Flt.nan := by
  cases x <;> rfl

theorem nan_div (x : Flt) : Flt.nan / x = Flt.nan := by
  cases x <;> rfl

theorem fin_zero_div_fin_zero : Flt.fin 0 / Flt.fin 0 = Flt.nan := by
  with_unfolding_all rfl

theorem roundS2_nan : Flt.roundS2 Flt.nan = Flt.nan := rfl

theorem nan_isNaN_eq_true : Flt.nan.isNaN = true := rfl

theorem fin_isNaN_eq_false (q : ℚ) : (Flt.fin q).isNaN = false := rfl

/-! ### C1: invalid measurement kind in `calc_window` -/

theorem calc_window_unknown_kind (current_time : Flt) (df : List Row)
    (kind : String) (hp : kind ≠ "power") (hr : kind ≠ "rpm") :
    calc_window current_time df kind = Flt.fin 0 := by
  simp [calc_window, hp, hr]

/-- C1.  The spec claims an invalid measurement kind fails with
`ConfigError`; the source instead constructs an `AssertionError` without
raising it, so `calc_window` silently returns the initial `result = 0.0`.
This theorem evaluates the code at such a failing input. -/
theorem c1_invalid_kind_returns_zero_not_error :
    calc_window (Flt.fin 0) [] ("speed") = Flt.fin 0 := by
  exact calc_window_unknown_kind _ _ _ (by decide) (by decide)

/-! ### C7: empty window selection -/

/-- C7.  When no sample lies strictly within ±0.5 s of the center, the
smoother returns the NaN produced by the zero-count mean (`0.0 / 0`) for
both measurement kinds — it neither raises nor substitutes a sentinel. -/
theorem c7_empty_selection_yields_nan (df : List Row) (current_time : Flt)
    (h : windowSelect df current_time = []) :
    calc_window current_time df ("power") = Flt.nan ∧
      calc_window current_time df ("rpm") = Flt.nan := by
  constructor <;>
    simp [calc_window, h, pandasSum, fin_zero_div_fin_zero, roundS2_nan]

/-- Witness for C7 at a concrete input: the empty series selects nothing. -/
theorem c7_witness :
    calc_window (Flt.fin 0) [] ("power") = Flt.nan ∧
      calc_window (Flt.fin 0) [] ("rpm") = Flt.nan :=
  c7_empty_selection_yields_nan [] (Flt.fin 0) rfl

/-! ### Hex decoding lemmas (C4, C6) -/

theorem hexVal_lt_16 {c : Char} {d : ℕ} (h : hexVal c = some d) : d < 16 := by
  simp only [hexVal] at h
  split_ifs at h with h1 h2 h3 <;> simp only [Option.some.injEq] at h <;> omega

theorem hexVal_char_ranges {c : Char} (h : (hexVal c).isSome) :
    (48 ≤ c.toNat ∧ c.toNat ≤ 57) ∨ (97 ≤ c.toNat ∧ c.toNat ≤ 102) ∨
      (65 ≤ c.toNat ∧ c.toNat ≤ 70) := by
  simp only [hexVal] at h
  split_ifs at h with h1 h2 h3
  · exact Or.inl h1
  · exact Or.inr (Or.inl h2)
  · exact Or.inr (Or.inr h3)
  · simp at h

theorem hex_not_space {c : Char} (h : (hexVal c).isSome) : isPySpace c = false := by
  have hr := hexVal_char_ranges h
  simp only [isPySpace, decide_eq_false_iff_not]
  omega

theorem hex_ne_of_toNat {c : Char} (h : (hexVal c).isSome) {c' : Char}
    (hv : c'.toNat < 48 ∨ (57 < c'.toNat ∧ c'.toNat < 65) ∨
      (70 < c'.toNat ∧ c'.toNat < 97) ∨ 102 < c'.toNat) : c ≠ c' := by
  have hr := hexVal_char_ranges h
  intro he
  rw [he] at hr
  omega

theorem hex_toNat_ne_95 {c : Char} (h : (hexVal c).isSome) : ¬ c.toNat = 95 := by
  have hr := hexVal_char_ranges h
  omega

theorem parseHexTail_all_hex (l : List Char) (acc : ℕ)
    (h : ∀ c ∈ l, (hexVal c).isSome) :
    parseHexTail acc l = some (hexListVal acc l) := by
  induction l generalizing acc with
  | nil => rfl
  | cons c rest ih =>
    have hc : (hexVal c).isSome := h c (List.mem_cons_self c rest)
    obtain ⟨d, hd⟩ := Option.isSome_iff_exists.mp hc
    have hrest : ∀ x ∈ rest, (hexVal x).isSome := fun x hx =>
      h x (List.mem_cons_of_mem c hx)
    have h1 : parseHexTail acc (c :: rest) = parseHexTail (16 * acc + d) rest := by
      rw [parseHexTail.eq_def]
      simp only [if_neg (hex_toNat_ne_95 hc), hd]
    have h2 : hexListVal acc (c :: rest) = hexListVal (16 * acc + d) rest := by
      simp [hexListVal, hd]
    rw [h1, h2, ih (16 * acc + d) hrest]

theorem hexListVal_lt (l : List Char) (acc : ℕ)
    (h : ∀ c ∈ l, (hexVal c).isSome) :
    hexListVal acc l < (acc + 1) * 16 ^ l.length := by
  induction l generalizing acc with
  | nil => simp [hexListVal]
  | cons c rest ih =>
    have hc : (hexVal c).isSome := h c (List.mem_cons_self c rest)
    obtain ⟨d, hd⟩ := Option.isSome_iff_exists.mp hc
    have hd16 : d < 16 := hexVal_lt_16 hd
    have hrest : ∀ x ∈ rest, (hexVal x).isSome := fun x hx =>
      h x (List.mem_cons_of_mem c hx)
    have step : hexListVal acc (c :: rest) = hexListVal (16 * acc + d) rest := by
      simp [hexListVal, hd]
    rw [step]
    calc hexListVal (16 * acc + d) rest
        < (16 * acc + d + 1) * 16 ^ rest.length := ih (16 * acc + d) hrest
      _ ≤ (acc + 1) * 16 ^ (c :: rest).length := by
          simp only [List.length_cons, pow_succ]
          have h1 : 16 * acc + d + 1 ≤ (acc + 1) * 16 := by omega
          calc (16 * acc + d + 1) * 16 ^ rest.length
              ≤ (acc + 1) * 16 * 16 ^ rest.length :=
                Nat.mul_le_mul_right _ h1
            _ = (acc + 1) * (16 ^ rest.length * 16) := by ring

theorem parseHexDigits_all_hex (l : List Char) (hne : l ≠ [])
    (h : ∀ c ∈ l, (hexVal c).isSome) :
    ∃ n : ℕ, parseHexDigits l = some n ∧ n < 16 ^ l.length := by
  cases l with
  | nil => exact absurd rfl hne
  | cons c rest =>
    have hc : (hexVal c).isSome := h c (List.mem_cons_self c rest)
    obtain ⟨d, hd⟩ := Option.isSome_iff_exists.mp hc
    have hrest : ∀ x ∈ rest, (hexVal x).isSome := fun x hx =>
      h x (List.mem_cons_of_mem c hx)
    refine ⟨hexListVal d rest, ?_, ?_⟩
    · rw [parseHexDigits.eq_def]
      simp only [hd, parseHexTail_all_hex rest d hrest]
    · calc hexListVal d rest < (d + 1) * 16 ^ rest.length :=
          hexListVal_lt rest d hrest
        _ ≤ 16 * 16 ^ rest.length := by
          have : d + 1 ≤ 16 := hexVal_lt_16 hd
          exact Nat.mul_le_mul_right _ this
        _ = 16 ^ (c :: rest).length := by
          simp only [List.length_cons, pow_succ]
          ring

theorem dropWhile_isPySpace_all_hex (l : List Char)
    (h : ∀ c ∈ l, (hexVal c).isSome) : l.dropWhile isPySpace = l := by
  cases l with
  | nil => rfl
  | cons c rest =>
    rw [List.dropWhile_cons, hex_not_space (h c (List.mem_cons_self c rest))]
    simp

theorem pyStrip_all_hex (l : List Char) (h : ∀ c ∈ l, (hexVal c).isSome) :
    pyStrip l = l := by
  unfold pyStrip
  rw [dropWhile_isPySpace_all_hex l h,
    dropWhile_isPySpace_all_hex l.reverse (fun c hc => h c (List.mem_reverse.mp hc)),
    List.reverse_reverse]

theorem parseAfterSign_all_hex (l : List Char) (hne : l ≠ [])
    (h : ∀ c ∈ l, (hexVal c).isSome) :
    ∃ n : ℕ, parseAfterSign l = some n ∧ n < 16 ^ l.length := by
  cases l with
  | nil => exact absurd rfl hne
  | cons c1 rest =>
    cases rest with
    | nil =>
      obtain ⟨n, hn, hb⟩ := parseHexDigits_all_hex [c1] (by simp) h
      exact ⟨n, hn, hb⟩
    | cons c2 rest2 =>
      have hc2 : (hexVal c2).isSome :=
        h c2 (List.mem_cons_of_mem c1 (List.mem_cons_self c2 rest2))
      have hnx : ¬(c1 = '0' ∧ (c2 = 'x' ∨ c2 = 'X')) := by
        rintro ⟨-, hx | hX⟩
        · exact hex_ne_of_toNat hc2 (by right; right; right; decide) hx
        · exact hex_ne_of_toNat hc2
            (by right; right; left; exact ⟨by decide, by decide⟩) hX
      obtain ⟨n, hn, hb⟩ := parseHexDigits_all_hex (c1 :: c2 :: rest2) (by simp) h
      refine ⟨n, ?_, hb⟩
      rw [parseAfterSign.eq_def]
      simp only [if_neg hnx]
      exact hn

theorem parseSigned_all_hex (l : List Char) (hne : l ≠ [])
    (h : ∀ c ∈ l, (hexVal c).isSome) :
    ∃ n : ℕ, parseSigned l = some ((n : ℤ)) ∧ n < 16 ^ l.length := by
  cases l with
  | nil => exact absurd rfl hne
  | cons c rest =>
    have hc : (hexVal c).isSome := h c (List.mem_cons_self c rest)
    have hplus : c ≠ '+' :=
      hex_ne_of_toNat hc (by left; decide)
    have hminus : c ≠ '-' :=
      hex_ne_of_toNat hc (by left; decide)
    obtain ⟨n, hn, hb⟩ := parseAfterSign_all_hex (c :: rest) (by simp) h
    refine ⟨n, ?_, hb⟩
    simp only [parseSigned, if_neg hplus, if_neg hminus, hn]
    rfl

theorem reversed_chunk_mem {s : List Char} {c : Char}
    (hc : c ∈ s.drop 6 ++ ((s.drop 4).take 2 ++ ((s.drop 2).take 2 ++ s.take 2))) :
    c ∈ s := by
  simp only [List.mem_append] at hc
  rcases hc with h | h | h | h
  · exact List.mem_of_mem_drop h
  · exact List.mem_of_mem_drop (List.mem_of_mem_take h)
  · exact List.mem_of_mem_drop (List.mem_of_mem_take h)
  · exact List.mem_of_mem_take h

/-- Shared success/range fact: on a chunk of 8 valid hex characters,
`hex_to_int` succeeds with a value below `2^32`. -/
theorem hex8_decode (s : List Char) (hlen : s.length = 8)
    (hhex : ∀ c ∈ s, (hexVal c).isSome) :
    ∃ n : ℕ, n < 2 ^ 32 ∧ hex_to_int s = Except.ok ((n : ℤ)) := by
  set r := s.drop 6 ++ ((s.drop 4).take 2 ++ ((s.drop 2).take 2 ++ s.take 2)) with hr
  have hrhex : ∀ c ∈ r, (hexVal c).isSome := fun c hc =>
    hhex c (reversed_chunk_mem hc)
  have hrlen : r.length = 8 := by
    simp only [hr, List.length_append, List.length_drop, List.length_take, hlen]
    decide
  have hrne : r ≠ [] := by
    intro he
    rw [he] at hrlen
    simp at hrlen
  obtain ⟨n, hn, hb⟩ := parseSigned_all_hex r hrne hrhex
  refine ⟨n, by rw [hrlen] at hb; exact hb, ?_⟩
  simp only [hex_to_int, pyIntHex, pyStrip_all_hex r hrhex]
  rw [hn]

/-! ### C6: which chunks decode -/

/-- C6 (amended).  On every chunk of 8 valid hex characters decoding
succeeds; but failure is *not* equivalent to the chunk being non-hex:
`int(_, 16)` also accepts some strings with whitespace, underscores, a
sign, or an `0x` prefix positioned to survive the byte reversal, so
decoding succeeds on some non-hex 8-character inputs as well. -/
theorem c6_valid_hex_chunk_decodes (s : List Char) (hlen : s.length = 8)
    (hhex : ∀ c ∈ s, (hexVal c).isSome) :
    ∃ n : ℤ, hex_to_int s = Except.ok n := by
  obtain ⟨n, -, h⟩ := hex8_decode s hlen hhex
  exact ⟨(n : ℤ), h⟩

/-- Witness for the amended C6 at a concrete valid chunk. -/
theorem c6_witness : ∃ n : ℤ, hex_to_int (("01000000").toList) = Except.ok n :=
  c6_valid_hex_chunk_decodes (("01000000").toList) (by decide) (by decide)

/-- C6 counterexample: `"111111 1"` is an 8-character string that is not
made of 8 hex digits (it contains a space), yet decoding succeeds — the
space ends up leading in the reversed string, where Python strips it.
So "fails iff not 8 valid hex characters" is false at this input. -/
theorem c6_cex_nonhex_chunk_decodes :
    ¬ ((hex_to_int (("111111 1").toList) = Except.error Err.decodeError) ↔
      ¬ (("111111 1").toList.length = 8 ∧
        ∀ c ∈ ("111111 1").toList, (hexVal c).isSome)) := by
  decide

/-! ### C4: byte-order round trip -/

theorem hex_to_int_explicit (x0 x1 x2 x3 x4 x5 x6 x7 : Char) :
    hex_to_int [x0, x1, x2, x3, x4, x5, x6, x7] =
      match pyIntHex [x6, x7, x4, x5, x2, x3, x0, x1] with
      | some n => Except.ok n
      | none => Except.error Err.decodeError := rfl

theorem pyIntHex_digits (m0 m1 m2 m3 m4 m5 m6 m7 : ℕ)
    (h0 : m0 < 16) (h1 : m1 < 16) (h2 : m2 < 16) (h3 : m3 < 16)
    (h4 : m4 < 16) (h5 : m5 < 16) (h6 : m6 < 16) (h7 : m7 < 16) :
    pyIntHex [hexDigitChar m0, hexDigitChar m1, hexDigitChar m2,
        hexDigitChar m3, hexDigitChar m4, hexDigitChar m5, hexDigitChar m6,
        hexDigitChar m7] =
      some (((m0 * 16 ^ 7 + m1 * 16 ^ 6 + m2 * 16 ^ 5 + m3 * 16 ^ 4 +
        m4 * 16 ^ 3 + m5 * 16 ^ 2 + m6 * 16 + m7 : ℕ) : ℤ)) := by
  have hx : ∀ m : ℕ, m < 16 → hexVal (hexDigitChar m) = some m := by decide
  have hs : ∀ m : ℕ, m < 16 → (hexVal (hexDigitChar m)).isSome := by
    intro m hm
    rw [hx m hm]
    rfl
  set L := [hexDigitChar m0, hexDigitChar m1, hexDigitChar m2, hexDigitChar m3,
    hexDigitChar m4, hexDigitChar m5, hexDigitChar m6, hexDigitChar m7] with hL
  have hall : ∀ c ∈ L, (hexVal c).isSome := by
    intro c hc
    simp only [hL, List.mem_cons, List.not_mem_nil, or_false] at hc
    rcases hc with rfl | rfl | rfl | rfl | rfl | rfl | rfl | rfl
    · exact hs m0 h0
    · exact hs m1 h1
    · exact hs m2 h2
    · exact hs m3 h3
    · exact hs m4 h4
    · exact hs m5 h5
    · exact hs m6 h6
    · exact hs m7 h7
  have hstrip : pyStrip L = L := pyStrip_all_hex L hall
  have hm0 : (hexVal (hexDigitChar m0)).isSome := hs m0 h0
  have hm1 : (hexVal (hexDigitChar m1)).isSome := hs m1 h1
  have hplus : hexDigitChar m0 ≠ '+' := hex_ne_of_toNat hm0 (by left; decide)
  have hminus : hexDigitChar m0 ≠ '-' := hex_ne_of_toNat hm0 (by left; decide)
  have hnx : ¬(hexDigitChar m0 = '0' ∧
      (hexDigitChar m1 = 'x' ∨ hexDigitChar m1 = 'X')) := by
    rintro ⟨-, hx1 | hX1⟩
    · exact hex_ne_of_toNat hm1 (by right; right; right; decide) hx1
    · exact hex_ne_of_toNat hm1
        (by right; right; left; exact ⟨by decide, by decide⟩) hX1
  have htail : parseHexTail m0 [hexDigitChar m1, hexDigitChar m2,
      hexDigitChar m3, hexDigitChar m4, hexDigitChar m5, hexDigitChar m6,
      hexDigitChar m7] =
      some (hexListVal m0 [hexDigitChar m1, hexDigitChar m2, hexDigitChar m3,
        hexDigitChar m4, hexDigitChar m5, hexDigitChar m6, hexDigitChar m7]) := by
    refine parseHexTail_all_hex _ m0 ?_
    intro c hc
    exact hall c (List.mem_cons_of_mem _ hc)
  have hval : hexListVal m0 [hexDigitChar m1, hexDigitChar m2, hexDigitChar m3,
      hexDigitChar m4, hexDigitChar m5, hexDigitChar m6, hexDigitChar m7] =
      m0 * 16 ^ 7 + m1 * 16 ^ 6 + m2 * 16 ^ 5 + m3 * 16 ^ 4 + m4 * 16 ^ 3 +
        m5 * 16 ^ 2 + m6 * 16 + m7 := by
    simp only [hexListVal, List.foldl_cons, List.foldl_nil, hx m1 h1, hx m2 h2,
      hx m3 h3, hx m4 h4, hx m5 h5, hx m6 h6, hx m7 h7, Option.getD_some]
    ring
  simp only [pyIntHex, hstrip, hL, parseSigned, if_neg hplus, if_neg hminus]
  rw [parseAfterSign.eq_def]
  simp only [if_neg hnx]
  rw [parseHexDigits.eq_def]
  simp only [hx m0 h0, htail, hval, Option.map_some]
  rfl

/-- C4.  The byte-order contract: encoding a 32-bit value as four
big-endian bytes, reversing the byte order and hex-encoding yields a chunk
`hex_to_int` maps back to the value; the two known vectors hold; and every
valid 8-hex-character chunk decodes to a value in `[0, 2^32 - 1]`. -/
theorem c4_byte_order_round_trip :
    (∀ v : ℕ, v < 2 ^ 32 →
        hex_to_int (specEncodeChunk v) = Except.ok ((v : ℤ))) ∧
      hex_to_int (("01000000").toList) = Except.ok 1 ∧
      hex_to_int (("FFFFFFFF").toList) = Except.ok 4294967295 ∧
      (∀ s : List Char, s.length = 8 → (∀ c ∈ s, (hexVal c).isSome) →
        ∃ n : ℕ, n < 2 ^ 32 ∧ hex_to_int s = Except.ok ((n : ℤ))) := by
  refine ⟨?_, by decide, by decide, hex8_decode⟩
  intro v hv
  have hL : specEncodeChunk v =
      [hexDigitChar (v % 256 / 16), hexDigitChar (v % 256 % 16),
        hexDigitChar (v / 2 ^ 8 % 256 / 16), hexDigitChar (v / 2 ^ 8 % 256 % 16),
        hexDigitChar (v / 2 ^ 16 % 256 / 16), hexDigitChar (v / 2 ^ 16 % 256 % 16),
        hexDigitChar (v / 2 ^ 24 % 256 / 16),
        hexDigitChar (v / 2 ^ 24 % 256 % 16)] := rfl
  rw [hL, hex_to_int_explicit,
    pyIntHex_digits _ _ _ _ _ _ _ _ (by omega) (by omega) (by omega) (by omega)
      (by omega) (by omega) (by omega) (by omega)]
  have harith : v / 2 ^ 24 % 256 / 16 * 16 ^ 7 + v / 2 ^ 24 % 256 % 16 * 16 ^ 6 +
      v / 2 ^ 16 % 256 / 16 * 16 ^ 5 + v / 2 ^ 16 % 256 % 16 * 16 ^ 4 +
      v / 2 ^ 8 % 256 / 16 * 16 ^ 3 + v / 2 ^ 8 % 256 % 16 * 16 ^ 2 +
      v % 256 / 16 * 16 + v % 256 % 16 = v := by omega
  rw [harith]

/-- Witness for C4: the round-trip conjunct applied at `v = 1`. -/
theorem c4_witness : hex_to_int (specEncodeChunk 1) = Except.ok ((1 : ℤ)) :=
  c4_byte_order_round_trip.1 1 (by norm_num)

/-! ### Batch-abort lemmas (C5, C9) -/

theorem magnetsOf_zero (row : RawRow) (h : row.SamplingMagnets = 0) :
    magnetsOf row = Except.error Err.configError := by
  rw [magnetsOf, h]
  with_unfolding_all rfl

theorem magnetsOf_ne_zero (row : RawRow) (h : row.SamplingMagnets ≠ 0) :
    ∃ M : ℤ, magnetsOf row = Except.ok M := by
  have h52 : 52 * row.SamplingMagnets ≠ 0 := by
    intro he
    exact h (by linarith [he])
  have hq : 52 * row.SamplingMagnets / 10000 ≠ 0 :=
    div_ne_zero h52 (by norm_num)
  refine ⟨rhe (14 / (52 * row.SamplingMagnets / 10000)), ?_⟩
  rw [magnetsOf, fin_mul_fin, fin_div_fin _ (by norm_num : (10000 : ℚ) ≠ 0),
    fin_div_fin _ hq]
  rfl

theorem processAttempt_not_ok_of_SM0 (row : RawRow)
    (h : row.SamplingMagnets = 0) (out : List Sample) :
    processAttempt row ≠ Except.ok out := by
  rw [processAttempt]
  cases hdec : decodeLog row.FlyWheelLog with
  | error e => simp
  | ok ticks =>
    rw [magnetsOf_zero row h]
    simp

theorem decodeLog_short (log : List Char) (h : log.length < 8) :
    decodeLog log = Except.ok [] := by
  rw [decodeLog, chunksOf, Nat.div_eq_of_lt h]
  rfl

theorem processAttempt_short_log (row : RawRow)
    (hlen : row.FlyWheelLog.length < 8) (hSM : row.SamplingMagnets ≠ 0) :
    processAttempt row = Except.error Err.indexError := by
  obtain ⟨M, hM⟩ := magnetsOf_ne_zero row hSM
  rw [processAttempt, decodeLog_short _ hlen, hM]
  simp

theorem processAttempt_not_ok_of_short_log (row : RawRow)
    (hlen : row.FlyWheelLog.length < 8) (out : List Sample) :
    processAttempt row ≠ Except.ok out := by
  by_cases hSM : row.SamplingMagnets = 0
  · exact processAttempt_not_ok_of_SM0 row hSM out
  · rw [processAttempt_short_log row hlen hSM]
    simp

theorem processAll_error_of_mem {df : List RawRow} {row : RawRow}
    (hmem : row ∈ df) (hfail : ∀ out, processAttempt row ≠ Except.ok out) :
    ∃ e, processAll df = Except.error e := by
  induction df with
  | nil => cases hmem
  | cons a rest ih =>
    cases ha : processAttempt a with
    | error e => exact ⟨e, by simp [processAll, ha]⟩
    | ok s =>
      rcases List.mem_cons.mp hmem with rfl | hrest
      · exact absurd ha (hfail s)
      · obtain ⟨e, he⟩ := ih hrest
        exact ⟨e, by simp [processAll, ha, he]⟩

theorem transform_error_of_mem {df : List RawRow} {row : RawRow}
    (hmem : row ∈ df) (hfail : ∀ out, processAttempt row ≠ Except.ok out) :
    ∃ e, transform df = Except.error e := by
  obtain ⟨e, he⟩ := processAll_error_of_mem hmem hfail
  refine ⟨e, ?_⟩
  rw [transform, he]
  rfl

/-- C5 (amended).  A zero sampling-magnets value on any attempt makes the
whole batch fail with no output rows; the error is the configuration error
when the attempt's log decodes (log decoding runs first, so a bad log in
the same or an earlier attempt surfaces as a decode error instead). -/
theorem c5_zero_magnets_aborts_batch :
    (∀ df : List RawRow, (∃ row ∈ df, row.SamplingMagnets = 0) →
        ∃ e, transform df = Except.error e) ∧
      ∀ row : RawRow, row.SamplingMagnets = 0 →
        (∃ ticks, decodeLog row.FlyWheelLog = Except.ok ticks) →
        processAttempt row = Except.error Err.configError := by
  constructor
  · rintro df ⟨row, hmem, hSM⟩
    exact transform_error_of_mem hmem (processAttempt_not_ok_of_SM0 row hSM)
  · rintro row hSM ⟨ticks, hdec⟩
    rw [processAttempt, hdec, magnetsOf_zero row hSM]

/-- Witness for C5 at concrete inputs. -/
theorem c5_witness :
    (∃ e, transform [c5bRow] = Except.error e) ∧
      processAttempt c5bRow = Except.error Err.configError :=
  ⟨c5_zero_magnets_aborts_batch.1 [c5bRow]
      ⟨c5bRow, List.mem_singleton.mpr rfl, rfl⟩,
    c5_zero_magnets_aborts_batch.2 c5bRow rfl ⟨[1], by decide⟩⟩

/-- C5 counterexample: a batch containing an attempt with
`SamplingMagnets = 0` whose log is undecodable fails with the decode
error, not the configuration error the claim promises. -/
theorem c5_cex_decode_error_takes_precedence :
    c5Row.SamplingMagnets = 0 ∧
      transform [c5Row] = Except.error Err.decodeError ∧
      Err.decodeError ≠ Err.configError := by
  refine ⟨rfl, ?_, by decide⟩
  decide

/-- C9.  An attempt whose log is shorter than one 8-character chunk
decodes to zero ticks; `.iloc[0]` on the empty timer column then raises
(the index error — unless a zero sampling-magnets value already raised at
the Magnets line, which runs first), so the batch aborts instead of
contributing an empty series and continuing. -/
theorem c9_empty_tick_series_raises :
    (∀ row : RawRow, row.FlyWheelLog.length < 8 → row.SamplingMagnets ≠ 0 →
        processAttempt row = Except.error Err.indexError) ∧
      ∀ df : List RawRow, (∃ row ∈ df, row.FlyWheelLog.length < 8) →
        ∃ e, transform df = Except.error e := by
  constructor
  · exact processAttempt_short_log
  · rintro df ⟨row, hmem, hlen⟩
    exact transform_error_of_mem hmem (processAttempt_not_ok_of_short_log row hlen)

/-- Witness for C9 at a concrete two-character log. -/
theorem c9_witness :
    processAttempt c9Row = Except.error Err.indexError ∧
      ∃ e, transform [c9Row] = Except.error e :=
  ⟨c9_empty_tick_series_raises.1 c9Row (by decide) (by norm_num [c9Row]),
    c9_empty_tick_series_raises.2 [c9Row] ⟨c9Row, List.mem_singleton.mpr rfl, by decide⟩⟩

/-! ### C10: the window always contains its center sample -/

theorem timeElapsed_fin (ticks : List ℤ) (i : ℕ) :
    timeElapsed ticks i =
      Flt.fin (((tickAt ticks i : ℚ) - (tickAt ticks 0 : ℚ)) / 57600) := by
  rw [timeElapsed, timerF, timerF, fin_sub_fin,
    fin_div_fin _ (by norm_num : (57600 : ℚ) ≠ 0)]

theorem timeTest_zero (ticks : List ℤ) : timeTest ticks 0 = Flt.nan := by
  rw [timeTest, sh, if_pos rfl, timeElapsed_fin, add_nan, nan_div]

theorem timeTest_fin (ticks : List ℤ) {i : ℕ} (h : i ≠ 0) :
    timeTest ticks i =
      Flt.fin (((((tickAt ticks i : ℚ) - (tickAt ticks 0 : ℚ)) / 57600) +
          (((tickAt ticks (i - 1) : ℚ) - (tickAt ticks 0 : ℚ)) / 57600)) / 2) := by
  rw [timeTest, sh, if_neg h, timeElapsed_fin, timeElapsed_fin, fin_add_fin,
    fin_div_fin _ (by norm_num : (2 : ℚ) ≠ 0)]

theorem timeTest_fin_or_nan (ticks : List ℤ) (i : ℕ) :
    (∃ q, timeTest ticks i = Flt.fin q) ∨ timeTest ticks i = Flt.nan := by
  by_cases h : i = 0
  · subst h
    exact Or.inr (timeTest_zero ticks)
  · exact Or.inl ⟨_, timeTest_fin ticks h⟩

theorem mem_buildRows_eq_mkRow {row : RawRow} {ticks : List ℤ} {M : ℤ} {r : Row}
    (h : r ∈ buildRows row ticks M) : ∃ i, r = mkRow row ticks M i := by
  obtain ⟨i, -, hi⟩ := List.mem_map.mp h
  exact ⟨i, hi.symm⟩

/-- C10.  In the pipeline's actual smoother calls — the window center is a
base row's own `time_test` and the frame is the same base series — the
selection always contains that row itself (`dropna` guarantees a finite
`time_test`, and a finite value lies strictly within ±0.5 of itself), so
the mean's divisor is at least 1 and the empty-selection case of C7 is
unreachable there. -/
theorem c10_window_contains_center (row : RawRow) (ticks : List ℤ) (M : ℤ) :
    ∀ r ∈ buildBase row ticks M,
      1 ≤ (windowSelect (buildBase row ticks M) r.time_test).length := by
  intro r hr
  have hfil : r ∈ (buildRows row ticks M).filter (fun x => !rowHasNaN x) :=
    List.mem_of_mem_drop hr
  have hmf := List.mem_filter.mp hfil
  obtain ⟨i, rfl⟩ := mem_buildRows_eq_mkRow hmf.1
  have hnn : rowHasNaN (mkRow row ticks M i) = false := by
    have h2 := hmf.2
    simpa using h2
  have htt : ∃ q, (mkRow row ticks M i).time_test = Flt.fin q := by
    rcases timeTest_fin_or_nan ticks i with ⟨q, hq⟩ | hnan
    · exact ⟨q, hq⟩
    · exfalso
      simp [rowHasNaN, mkRow, hnan, Flt.isNaN] at hnn
  obtain ⟨q, hq⟩ := htt
  apply List.length_pos_of_mem
  refine List.mem_filter.mpr ⟨hr, ?_⟩
  rw [hq, fin_sub_fin, fin_add_fin]
  have h1 : Flt.ltb (Flt.fin (q - 1 / 2)) (Flt.fin q) = true := by
    simp only [Flt.ltb, decide_eq_true_eq]
    linarith
  have h2 : Flt.ltb (Flt.fin q) (Flt.fin (q + 1 / 2)) = true := by
    simp only [Flt.ltb, decide_eq_true_eq]
    linarith
  rw [h1, h2]
  rfl

set_option maxRecDepth 8000 in
/-- Witness for C10 at the demo attempt's first surviving row. -/
theorem c10_witness :
    1 ≤ (windowSelect (buildBase demoRow demoTicks 3)
        ((buildBase demoRow demoTicks 3).getD 0 default).time_test).length := by
  have hlen : (buildBase demoRow demoTicks 3).length = 3 := by
    with_unfolding_all rfl
  have h0 : 0 < (buildBase demoRow demoTicks 3).length := by omega
  have hmem : (buildBase demoRow demoTicks 3).getD 0 default ∈
      buildBase demoRow demoTicks 3 := by
    rw [List.getD_eq_get _ _ h0]
    exact List.get_mem _ 0 h0
  exact c10_window_contains_center demoRow demoTicks 3 _ hmem

/-! ### C3: series length and surviving indices -/

theorem processAttempt_ok (row : RawRow) (ticks : List ℤ) (M : ℤ)
    (hdec : decodeLog row.FlyWheelLog = Except.ok ticks)
    (hmag : magnetsOf row = Except.ok M) (hne : ticks ≠ []) :
    processAttempt row =
      Except.ok ((buildBase row ticks M).map (mkSample (buildBase row ticks M))) := by
  rw [processAttempt, hdec, hmag]
  cases ticks with
  | nil => exact absurd rfl hne
  | cons a t => rfl

theorem tickAt_rel {R : ℤ → ℤ → Prop} {ticks : List ℤ}
    (hmono : List.Pairwise R ticks) {i j : ℕ} (hij : i < j)
    (hj : j < ticks.length) : R (tickAt ticks i) (tickAt ticks j) := by
  have hi : i < ticks.length := lt_trans hij hj
  rw [tickAt, tickAt, List.getD_eq_get _ _ hi, List.getD_eq_get _ _ hj]
  exact List.pairwise_iff_get.mp hmono ⟨i, hi⟩ ⟨j, hj⟩ hij

theorem sh_of_pos (f : ℕ → Flt) {i : ℕ} (h : i ≠ 0) : sh f i = f (i - 1) := by
  rw [sh, if_neg h]

theorem sh_sh_of_ge_two (f : ℕ → Flt) {i : ℕ} (h : 2 ≤ i) :
    sh (sh f) i = f (i - 2) := by
  have h12 : i - 1 - 1 = i - 2 := by omega
  rw [sh, if_neg (by omega : ¬ i = 0), sh, if_neg (by omega : ¬ i - 1 = 0), h12]

theorem timerF_sub_fin (ticks : List ℤ) (i j : ℕ) :
    timerF ticks i - timerF ticks j =
      Flt.fin ((tickAt ticks i : ℚ) - (tickAt ticks j : ℚ)) := by
  rw [timerF, timerF, fin_sub_fin]

theorem int_cast_sub_ne_zero {a b : ℤ} (h : a ≠ b) :
    ((a : ℚ) - (b : ℚ)) ≠ 0 := by
  rw [sub_ne_zero]
  exact_mod_cast h

theorem timeDiff_fin (ticks : List ℤ) {i : ℕ} (h : i ≠ 0) :
    timeDiff ticks i =
      Flt.fin ((tickAt ticks i : ℚ) - (tickAt ticks (i - 1) : ℚ)) := by
  rw [timeDiff, sh_of_pos _ h, timerF_sub_fin]

theorem rpmCol_fin (ticks : List ℤ) {M : ℤ} (hM : M ≠ 0) {i : ℕ} (hi0 : i ≠ 0)
    (hd : tickAt ticks i ≠ tickAt ticks (i - 1)) :
    ∃ q, rpmCol ticks M i = Flt.fin q := by
  rw [rpmCol, timeDiff_fin ticks hi0, fin_mul_fin, fin_mul_fin,
    fin_div_fin _ (mul_ne_zero (mul_ne_zero (by exact_mod_cast hM) (by norm_num))
      (int_cast_sub_ne_zero hd))]
  exact ⟨_, rfl⟩

theorem timeTestDiff_fin (ticks : List ℤ) {i : ℕ} (hi : 2 ≤ i) :
    timeTestDiff ticks i =
      Flt.fin (((tickAt ticks i : ℚ) - (tickAt ticks (i - 2) : ℚ)) / (2 * 57600)) := by
  rw [timeTestDiff, sh_of_pos _ (by omega : ¬ i = 0),
    timeTest_fin ticks (by omega : ¬ i = 0),
    timeTest_fin ticks (by omega : ¬ i - 1 = 0), fin_sub_fin]
  congr 1
  have h21 : i - 1 - 1 = i - 2 := by omega
  rw [h21]
  field_simp
  ring

theorem powerBrake_fin (ticks : List ℤ) {M : ℤ} (hM : M ≠ 0) (BW : ℚ) {i : ℕ}
    (hi : 2 ≤ i) (hd : tickAt ticks i ≠ tickAt ticks (i - 2)) :
    ∃ q, powerBrake ticks M BW i = Flt.fin q := by
  rw [powerBrake, timeTestDiff_fin ticks hi, fin_mul_fin, fin_mul_fin,
    fin_mul_fin, fin_mul_fin,
    fin_div_fin _ (mul_ne_zero (by exact_mod_cast hM)
      (div_ne_zero (int_cast_sub_ne_zero hd) (by norm_num)))]
  exact ⟨_, rfl⟩

theorem powerKinetic_fin (ticks : List ℤ) {M : ℤ} (hM : M ≠ 0) {i : ℕ}
    (hi : 2 ≤ i) (hd2 : tickAt ticks i ≠ tickAt ticks (i - 2))
    (hd1 : tickAt ticks i ≠ tickAt ticks (i - 1))
    (hd0 : tickAt ticks (i - 1) ≠ tickAt ticks (i - 2)) :
    ∃ q, powerKinetic ticks M i = Flt.fin q := by
  have hM2 : ((M : ℚ) ^ 2) ≠ 0 := pow_ne_zero 2 (by exact_mod_cast hM)
  have hshsh : sh (sh (timerF ticks)) i = timerF ticks (i - 2) :=
    sh_sh_of_ge_two _ hi
  have hsh : sh (timerF ticks) i = timerF ticks (i - 1) :=
    sh_of_pos _ (by omega)
  rw [powerKinetic, hshsh, hsh, timerF_sub_fin, timerF_sub_fin, timerF_sub_fin,
    fin_mul_fin]
  rw [show ∀ a : ℚ, (Flt.fin a).sq = Flt.fin (a * a) from fun a => rfl,
    show ∀ a : ℚ, (Flt.fin a).sq = Flt.fin (a * a) from fun a => rfl]
  rw [fin_div_fin _ (mul_ne_zero hM2 (int_cast_sub_ne_zero hd2)),
    fin_div_fin _ (mul_ne_zero (int_cast_sub_ne_zero hd1) (int_cast_sub_ne_zero hd1)),
    fin_div_fin _ (mul_ne_zero (int_cast_sub_ne_zero hd0) (int_cast_sub_ne_zero hd0)),
    fin_sub_fin, fin_mul_fin]
  exact ⟨_, rfl⟩

theorem timeRecorded_fin (ticks : List ℤ) (Dur : ℚ) (i : ℕ) :
    ∃ q, timeRecorded ticks Dur i = Flt.fin q := by
  rw [timeRecorded, timeElapsed_fin, timeElapsed_fin, fin_sub_fin, fin_add_fin]
  exact ⟨_, rfl⟩

theorem timeTestDiff_one (ticks : List ℤ) : timeTestDiff ticks 1 = Flt.nan := by
  rw [timeTestDiff, sh_of_pos _ (by omega : ¬ (1 : ℕ) = 0)]
  norm_num [timeTest_zero, sub_nan]

/-- Classification of the `dropna` test: under strictly increasing ticks
and a nonzero Magnets value, exactly the first two rows contain a NaN. -/
theorem rowHasNaN_eq (row : RawRow) (ticks : List ℤ) {M : ℤ} (hM : M ≠ 0)
    (hmono : List.Pairwise (fun a b : ℤ => a < b) ticks) {i : ℕ}
    (hi : i < ticks.length) :
    rowHasNaN (mkRow row ticks M i) = decide (i < 2) := by
  by_cases h0 : i = 0
  · subst h0
    simp [rowHasNaN, mkRow, timeTest_zero, Flt.isNaN]
  · by_cases h1 : i = 1
    · subst h1
      simp [rowHasNaN, mkRow, timeTestDiff_one, Flt.isNaN]
    · have h2 : 2 ≤ i := by omega
      have hd1 : tickAt ticks i ≠ tickAt ticks (i - 1) :=
        (tickAt_rel hmono (by omega) hi).ne.symm
      have hd2 : tickAt ticks i ≠ tickAt ticks (i - 2) :=
        (tickAt_rel hmono (by omega) hi).ne.symm
      have hd0 : tickAt ticks (i - 1) ≠ tickAt ticks (i - 2) := by
        have := tickAt_rel hmono (show i - 2 < i - 1 by omega)
          (show i - 1 < ticks.length by omega)
        exact this.ne.symm
      obtain ⟨q1, hq1⟩ := rpmCol_fin ticks hM h0 hd1
      obtain ⟨q2, hq2⟩ := powerBrake_fin ticks hM row.BrakeWeight h2 hd2
      obtain ⟨q3, hq3⟩ := powerKinetic_fin ticks hM h2 hd2 hd1 hd0
      obtain ⟨q4, hq4⟩ := timeRecorded_fin ticks row.Duration i
      have hni : ¬ i < 2 := by omega
      simp [rowHasNaN, mkRow, timeElapsed_fin, timeTest_fin ticks h0,
        timeDiff_fin ticks h0, timeTestDiff_fin ticks h2, hq1, hq2, hq3, hq4,
        Flt.isNaN, hni]

theorem range_filter_ge_two :
    ∀ N : ℕ, (List.range N).filter (fun i => decide (2 ≤ i)) =
      List.range' 2 (N - 2)
  | 0 => by decide
  | 1 => by decide
  | 2 => by decide
  | (N + 3) => by
    rw [List.range_succ, List.filter_append, range_filter_ge_two (N + 2)]
    have h1 : (List.filter (fun i => decide (2 ≤ i)) [N + 2]) = [N + 2] := by
      simp
    rw [h1, show N + 3 - 2 = (N + 2 - 2) + 1 from rfl,
      List.range'_concat 2 (N + 2 - 2)]
    simp
    omega

theorem buildBase_eq (row : RawRow) (ticks : List ℤ) {M : ℤ} (hM : M ≠ 0)
    (hmono : List.Pairwise (fun a b : ℤ => a < b) ticks)
    (hN : 4 ≤ ticks.length) :
    buildBase row ticks M =
      (List.range' 3 (ticks.length - 3)).map (mkRow row ticks M) := by
  rw [buildBase, buildRows, List.filter_map]
  have hcong : List.filter ((fun r => !rowHasNaN r) ∘ mkRow row ticks M)
      (List.range ticks.length) =
      List.filter (fun i => decide (2 ≤ i)) (List.range ticks.length) := by
    apply List.filter_congr
    intro i hi
    have hilt : i < ticks.length := List.mem_range.mp hi
    show (!rowHasNaN (mkRow row ticks M i)) = decide (2 ≤ i)
    rw [rowHasNaN_eq row ticks hM hmono hilt]
    by_cases h2 : 2 ≤ i
    · have hlt : ¬ i < 2 := by omega
      simp [hlt, h2]
    · have hlt : i < 2 := by omega
      simp [hlt, h2]
  rw [hcong, range_filter_ge_two]
  have hsplit : ticks.length - 2 = (ticks.length - 3) + 1 := by omega
  rw [hsplit, List.range'_succ]
  rfl

/-- C3 (amended).  For an attempt whose ticks are strictly increasing and
whose derived Magnets value is nonzero, the output series has exactly
`N - 3` samples and the survivors are the rows at original tick indices
`3, 4, …, N-1`.  (Without these hypotheses the claim fails: degenerate
tick differences produce NaN in rows past the first two, and `dropna`
removes those rows as well — see the counterexample.) -/
theorem c3_series_length_and_indices (row : RawRow) (ticks : List ℤ) (M : ℤ)
    (hdec : decodeLog row.FlyWheelLog = Except.ok ticks)
    (hmag : magnetsOf row = Except.ok M) (hM : M ≠ 0)
    (hmono : List.Pairwise (fun a b : ℤ => a < b) ticks)
    (hN : 4 ≤ ticks.length) :
    ∃ series : List Sample, processAttempt row = Except.ok series ∧
      series.length = ticks.length - 3 ∧
      series.map (fun s => s.idx) = List.range' 3 (ticks.length - 3) := by
  have hne : ticks ≠ [] := by
    intro he
    rw [he] at hN
    simp at hN
  refine ⟨_, processAttempt_ok row ticks M hdec hmag hne, ?_, ?_⟩
  · rw [List.length_map, buildBase_eq row ticks hM hmono hN, List.length_map,
      List.length_range']
  · rw [buildBase_eq row ticks hM hmono hN, List.map_map, List.map_map]
    exact List.map_id'' (fun i => rfl) _

/-- Witness for the amended C3: the six-tick demo attempt yields three
samples at original indices 3, 4, 5. -/
theorem c3_witness :
    ∃ series : List Sample, processAttempt demoRow = Except.ok series ∧
      series.length = demoTicks.length - 3 ∧
      series.map (fun s => s.idx) = List.range' 3 (demoTicks.length - 3) :=
  c3_series_length_and_indices demoRow demoTicks 3 (by decide)
    (by with_unfolding_all rfl) (by decide) (by decide) (by decide)

/-- C3 counterexample: four identical ticks decode fine (N = 4), but every
derived row contains a NaN, `dropna` removes all of them, and the attempt
contributes 0 samples instead of the claimed N - 3 = 1. -/
theorem c3_cex_equal_ticks_drop_everything :
    decodeLog c3Row.FlyWheelLog = Except.ok [1, 1, 1, 1] ∧
      magnetsOf c3Row = Except.ok 3 ∧
      processAttempt c3Row = Except.ok [] ∧
      ([] : List Sample).length ≠ 4 - 3 := by
  refine ⟨by decide, by with_unfolding_all rfl, ?_, by decide⟩
  with_unfolding_all rfl

/-! ### C8: monotonicity of `time_elapsed` -/

theorem timeElapsed_le (ticks : List ℤ)
    (hmono : List.Pairwise (fun a b : ℤ => a ≤ b) ticks) {i j : ℕ}
    (hij : i < j) (hj : j < ticks.length) :
    Flt.leb (timeElapsed ticks i) (timeElapsed ticks j) = true := by
  rw [timeElapsed_fin, timeElapsed_fin]
  have ht : tickAt ticks i ≤ tickAt ticks j := tickAt_rel hmono hij hj
  have htq : (tickAt ticks i : ℚ) ≤ (tickAt ticks j : ℚ) := by exact_mod_cast ht
  show decide _ = true
  rw [decide_eq_true_eq, div_le_div_right (by norm_num : (0 : ℚ) < 57600)]
  linarith

/-- C8 (amended).  When the decoded ticks are non-decreasing — the spec's
hardware-clock assumption, which the code does not enforce — every pair of
samples in series order has non-decreasing `time_elapsed`.  (On decreasing
ticks the output `time_elapsed` decreases; see the counterexample.) -/
theorem c8_time_elapsed_monotone (row : RawRow) (ticks : List ℤ) (M : ℤ)
    (hdec : decodeLog row.FlyWheelLog = Except.ok ticks)
    (hmag : magnetsOf row = Except.ok M) (hne : ticks ≠ [])
    (hmono : List.Pairwise (fun a b : ℤ => a ≤ b) ticks) :
    ∃ series : List Sample, processAttempt row = Except.ok series ∧
      series.Pairwise
        (fun a b => Flt.leb a.time_elapsed b.time_elapsed = true) := by
  refine ⟨_, processAttempt_ok row ticks M hdec hmag hne, ?_⟩
  have hrows : (buildRows row ticks M).Pairwise
      (fun a b => Flt.leb a.time_elapsed b.time_elapsed = true) := by
    rw [buildRows]
    refine List.pairwise_map.mpr ?_
    refine (List.pairwise_lt_range ticks.length).imp_of_mem ?_
    intro i j hi hj hij
    exact timeElapsed_le ticks hmono hij (List.mem_range.mp hj)
  have hsub : List.Sublist (buildBase row ticks M) (buildRows row ticks M) :=
    (List.drop_sublist 1 _).trans (List.filter_sublist _)
  have hbase := hrows.sublist hsub
  exact List.pairwise_map.mpr (hbase.imp (fun {a b} h => h))

/-- Witness for the amended C8: the demo attempt. -/
theorem c8_witness :
    ∃ series : List Sample, processAttempt demoRow = Except.ok series ∧
      series.Pairwise
        (fun a b => Flt.leb a.time_elapsed b.time_elapsed = true) :=
  c8_time_elapsed_monotone demoRow demoTicks 3 (by decide)
    (by with_unfolding_all rfl) (by decide) (by decide)

/-- C8 counterexample: five strictly decreasing ticks decode fine (N = 5),
the attempt yields two samples, and the second sample's `time_elapsed` is
strictly below the first's — `time_elapsed` is not non-decreasing. -/
theorem c8_cex_decreasing_ticks :
    decodeLog c8Row.FlyWheelLog = Except.ok [5, 4, 3, 2, 1] ∧
      c8Series.length = 2 ∧
      Flt.ltb (c8Series.getD 1 default).time_elapsed
        (c8Series.getD 0 default).time_elapsed = true := by
  refine ⟨by decide, ?_, ?_⟩
  · with_unfolding_all rfl
  · with_unfolding_all rfl

/-! ### C2: window equivalence of the smoothed power -/

theorem c2_calc_eq_spec (base : List Row) (c : Flt)
    (hclean : ∀ r ∈ base, ((r.power_brake + r.power_kinetic).isNaN) = false) :
    calc_window c base ("power") = specPowerMean (base.map (mkSample base)) c := by
  have hsel : specSelect (base.map (mkSample base)) c =
      (windowSelect base c).map (mkSample base) := by
    show List.filter _ (List.map _ _) = _
    rw [List.filter_map]
    apply congrArg
    apply List.filter_congr
    intro r hr
    rfl
  have hno : ∀ x ∈ (windowSelect base c).map
      (fun r => r.power_brake + r.power_kinetic), (!x.isNaN) = true := by
    intro x hx
    obtain ⟨r, hrW, rfl⟩ := List.mem_map.mp hx
    have hrbase : r ∈ base := (List.mem_filter.mp hrW).1
    rw [hclean r hrbase]
    rfl
  have hsum : pandasSum ((windowSelect base c).map
      (fun r => r.power_brake + r.power_kinetic)) =
      ((windowSelect base c).map
        (fun r => r.power_brake + r.power_kinetic)).foldl Flt.add (Flt.fin 0) := by
    rw [pandasSum, List.filter_eq_self.mpr hno]
  have hmap : ((windowSelect base c).map (mkSample base)).map
      (fun s : Sample => s.power_brake + s.power_kinetic) =
      (windowSelect base c).map (fun r => r.power_brake + r.power_kinetic) := by
    rw [List.map_map]
    exact List.map_congr_left (fun r _ => rfl)
  rw [calc_window, specPowerMean]
  simp only [hsel, hmap, List.length_map, if_pos rfl]
  rw [hsum]
  simp

/-- C2 (amended).  For every output sample, `power_centered` equals the
naive spec recomputation — the rounded mean of
`power_brake + power_kinetic` over the samples of the same series whose
`time_test` lies strictly within ±0.5 s — provided no row of the series
has a NaN `power_brake + power_kinetic` sum.  (Without that proviso the
claim fails: pandas `Series.sum()` silently skips NaN addends while the
divisor still counts them — see the counterexample, where opposite
infinities meet.) -/
theorem c2_power_centered_window_equivalence (row : RawRow) (ticks : List ℤ)
    (M : ℤ) (hdec : decodeLog row.FlyWheelLog = Except.ok ticks)
    (hmag : magnetsOf row = Except.ok M) (hne : ticks ≠ [])
    (hclean : ∀ r ∈ buildBase row ticks M,
      ((r.power_brake + r.power_kinetic).isNaN) = false) :
    ∃ series : List Sample, processAttempt row = Except.ok series ∧
      ∀ s ∈ series, s.power_centered = specPowerMean series s.time_test := by
  refine ⟨_, processAttempt_ok row ticks M hdec hmag hne, ?_⟩
  intro s hs
  obtain ⟨r, hr, rfl⟩ := List.mem_map.mp hs
  exact c2_calc_eq_spec (buildBase row ticks M) r.time_test hclean

/-- Witness for the amended C2: the demo attempt (all sums finite). -/
theorem c2_witness :
    ∃ series : List Sample, processAttempt demoRow = Except.ok series ∧
      ∀ s ∈ series, s.power_centered = specPowerMean series s.time_test :=
  c2_power_centered_window_equivalence demoRow demoTicks 3 (by decide)
    (by with_unfolding_all rfl) (by decide)
    (of_decide_eq_true (by with_unfolding_all rfl))

set_option maxRecDepth 8000 in
/-- C2 counterexample: with `Magnets = 0` and widening tick gaps the one
surviving sample has `power_brake = +∞` and `power_kinetic = -∞`; pandas
skips the NaN sum in the numerator but counts the sample in the divisor,
so the code stores `0.0` while the naive mean of the claim is NaN. -/
theorem c2_cex_nan_skipping_sum :
    magnetsOf c2Row = Except.ok 0 ∧
      c2Series.length = 1 ∧
      (c2Series.getD 0 default) ∈ c2Series ∧
      (c2Series.getD 0 default).power_centered = Flt.fin 0 ∧
      specPowerMean c2Series ((c2Series.getD 0 default).time_test) = Flt.nan ∧
      Flt.fin 0 ≠ Flt.nan := by
  have hlen : c2Series.length = 1 := by with_unfolding_all rfl
  have h0 : 0 < c2Series.length := by omega
  refine ⟨?_, hlen, ?_, ?_, ?_, by decide⟩
  · with_unfolding_all rfl
  · rw [List.getD_eq_get _ _ h0]
    exact List.get_mem _ 0 h0
  · with_unfolding_all rfl
  · with_unfolding_all rfl

end Monark


